import Mathlib

/-!
Verification of the reduce-by-key dispatch harness (test_device_reduce_by_key.cu)
and the error-reporting layer (util_debug.cuh).

The sequential reference `Solve` (test_device_reduce_by_key.cu:324-360) is the
repository's authoritative definition of the reduce-by-key result; the device
pipeline `DeviceReduce::ReduceByKey` is not among the source files, so where a
claim depends on its behaviour we model it from the specification (each such
definition says so in its doc comment).

Machine integers: the harness manipulates `int` counters that stay small and
non-negative (loop indices, segment counts bounded by `num_items`), and
`size_t` byte counts; both are embedded as `Nat` since no overflow can occur
on the quantities involved.
-/

namespace TcCub

/-- The CUDA success status: `cudaSuccess` is the zero code of the
`cudaError_t` enumeration; `if (error)` in the source tests non-zero. -/
def cudaSuccess : Nat := 0

/-- State carried across iterations of the loop
`for (int i = 1; i < num_items; ++i)` in `Solve`
(test_device_reduce_by_key.cu:339-353): the `previous` key, the running
`aggregate`, the output arrays written so far (`h_keys_reference`,
`h_values_reference`, modelled as the lists of cells written, in index
order), and the `num_segments` write cursor. -/
structure SolveState (K V : Type) where
  previous : K
  aggregate : V
  keysRef : List K
  valsRef : List V
  numSegments : Nat

/-- One iteration of the `Solve` loop body (test_device_reduce_by_key.cu:341-352):
if `equality_op(previous, h_keys_in[i])` fails, flush `(previous, aggregate)`
to the reference arrays at index `num_segments` and restart the aggregate at
`h_values_in[i]`; otherwise fold `h_values_in[i]` into the aggregate.  Either
way `previous` becomes `h_keys_in[i]`. -/
def solveStep {K V : Type} (equality_op : K → K → Bool) (reduction_op : V → V → V)
    (s : SolveState K V) (ki : K) (vi : V) : SolveState K V :=
  if ! equality_op s.previous ki then
    { previous := ki
      aggregate := vi
      keysRef := s.keysRef ++ [s.previous]
      valsRef := s.valsRef ++ [s.aggregate]
      numSegments := s.numSegments + 1 }
  else
    { s with previous := ki, aggregate := reduction_op s.aggregate vi }

/-- The sequential reference `Solve` (test_device_reduce_by_key.cu:324-360).
Inputs are the key/value arrays as lists; the result is
`(h_keys_reference, h_values_reference, num_segments)`: the written prefixes
of the two reference arrays and the returned segment count.  The source
seeds the state from element 0, folds the loop over elements `1..num_items-1`,
and finally flushes the open run and increments the count once more.
For empty input the C code reads index 0 out of bounds (see `SolveChecked`);
here the empty case returns the empty result. -/
def Solve {K V : Type} (equality_op : K → K → Bool) (reduction_op : V → V → V)
    (keys : List K) (vals : List V) : List K × List V × Nat :=
  match keys, vals with
  | k0 :: krest, v0 :: vrest =>
    let s := (krest.zip vrest).foldl
      (fun s p => solveStep equality_op reduction_op s p.1 p.2)
      { previous := k0, aggregate := v0, keysRef := [], valsRef := [], numSegments := 0 }
    (s.keysRef ++ [s.previous], s.valsRef ++ [s.aggregate], s.numSegments + 1)
  | _, _ => ([], [], 0)

/-- Recursive presentation of the `Solve` loop: given the current `previous`
key and running `aggregate`, process the remaining `(key, value)` pairs and
return the emitted key and value sequences (including the final flush of the
open run).  Equivalent to the `foldl` over `solveStep`
(see `foldl_solveStep_eq_solveGo`); used for the induction proofs. -/
def solveGo {K V : Type} (eq : K → K → Bool) (red : V → V → V)
    (previous : K) (aggregate : V) : List (K × V) → List K × List V
  | [] => ([previous], [aggregate])
  | (k, v) :: rest =>
    if ! eq previous k then
      (previous :: (solveGo eq red k v rest).1, aggregate :: (solveGo eq red k v rest).2)
    else
      solveGo eq red k (red aggregate v) rest

/-- Spec-side definition, from the specification's words (§8, glossary):
helper computing the maximal contiguous run containing the seed pair `p`
together with the remaining runs of the rest of the sequence.  A successor
belongs to the current run iff the equality relation accepts the adjacent
pair of keys. -/
def splitRunsGo {K V : Type} (eq : K → K → Bool) (p : K × V) :
    List (K × V) → List (K × V) × List (List (K × V))
  | [] => ([p], [])
  | q :: rest =>
    if eq p.1 q.1 then
      (p :: (splitRunsGo eq q rest).1, (splitRunsGo eq q rest).2)
    else
      ([p], (splitRunsGo eq q rest).1 :: (splitRunsGo eq q rest).2)

/-- Spec-side definition: the list of maximal contiguous equal-key runs of a
key/value sequence, under the given equality relation.  Runs are contiguous
by construction — elements are never grouped with equal keys elsewhere in
the sequence. -/
def splitRuns {K V : Type} (eq : K → K → Bool) : List (K × V) → List (List (K × V))
  | [] => []
  | p :: rest => (splitRunsGo eq p rest).1 :: (splitRunsGo eq p rest).2

/-- The left fold of the reduction operator over the values of a run, in
input order (`none` on the empty list, which `splitRuns` never produces). -/
def runFold {K V : Type} (red : V → V → V) : List (K × V) → Option V
  | [] => none
  | (_, v) :: rest => some (rest.foldl (fun a q => red a q.2) v)

/-- The key of the last element of a run (`none` on the empty list).
`Solve` emits a run's key from `previous`, i.e. the run's last key. -/
def runLastKey {K V : Type} (r : List (K × V)) : Option K :=
  r.getLast?.map Prod.fst

/-- Modelled from the spec: the device-wide reduce-by-key operation
(`DeviceReduce::ReduceByKey`).  Its dispatch pipeline is not among the source
files — only its test harness and the error layer are — so it is modelled
from §4.1/§8 of the spec: `numItems == 0` runs zero-work stages and reports
zero runs with a success status and no output writes; otherwise the emitted
keys, values and run count equal the sequential reference `Solve`.  The
result is `((keys_out, values_out, num_runs), status)`. -/
def reduceByKeyOp {K V : Type} (equality_op : K → K → Bool) (reduction_op : V → V → V)
    (keys : List K) (vals : List V) : (List K × List V × Nat) × Nat :=
  if keys.isEmpty then (([], [], 0), cudaSuccess)
  else (Solve equality_op reduction_op keys vals, cudaSuccess)

/-- Key equality `==` on `int` keys, as used by the `Equality` functor in the
test harness. -/
def natEq : Nat → Nat → Bool := fun a b => a == b

/-- The `cub::Sum()` reduction operator on integer values. -/
def natAdd : Nat → Nat → Nat := fun a b => a + b

/-- Concrete scenario keys from the spec (§8). -/
def demoKeys : List Nat := [1, 1, 2, 2, 2, 3]

/-- Concrete scenario values from the spec (§8). -/
def demoVals : List Nat := [10, 20, 30, 40, 50, 60]

/-- Index-checked embedding of the `Solve` loop
(test_device_reduce_by_key.cu:333-359): every array access `h[..]` of the C
code becomes a checked lookup, and every write `h_ref[num_segments] = ..`
requires `num_segments` to lie inside the reference arrays (allocated with
`new KeyT[num_items]` by the callers, test_device_reduce_by_key.cu:477-481).
`fuel` counts the remaining iterations of `for (int i = 1; i < num_items; ++i)`.
The result is `none` iff some access would be out of bounds. -/
def solveCheckedGo {K V : Type} (eq : K → K → Bool) (red : V → V → V)
    (keys : List K) (vals : List V) (numItems : Nat) :
    Nat → Nat → K → V → List K → List V → Nat → Option (List K × List V × Nat)
  | 0, _, prev, agg, ks, vs, n =>
    if n < numItems then some (ks ++ [prev], vs ++ [agg], n + 1) else none
  | fuel + 1, i, prev, agg, ks, vs, n =>
    match keys[i]?, vals[i]? with
    | some ki, some vi =>
      if ! eq prev ki then
        if n < numItems then
          solveCheckedGo eq red keys vals numItems fuel (i + 1) ki vi
            (ks ++ [prev]) (vs ++ [agg]) (n + 1)
        else none
      else
        solveCheckedGo eq red keys vals numItems fuel (i + 1) ki (red agg vi) ks vs n
    | _, _ => none

/-- Index-checked `Solve`: reads element 0 of both input arrays
unconditionally (test_device_reduce_by_key.cu:334-335) and then runs the
checked loop from `i = 1`. -/
def SolveChecked {K V : Type} (eq : K → K → Bool) (red : V → V → V)
    (keys : List K) (vals : List V) (numItems : Nat) :
    Option (List K × List V × Nat) :=
  match keys[0]?, vals[0]? with
  | some k0, some v0 =>
    solveCheckedGo eq red keys vals numItems (numItems - 1) 1 k0 v0 [] [] 0
  | _, _ => none

/-- Device memory visible to the CDP bridge
(test_device_reduce_by_key.cu:385-397): the `*d_temp_storage_bytes` and
`*d_cdp_error` communication cells and the `d_keys_out` / `d_values_out` /
`d_num_runs` output buffers. -/
structure DeviceMem (K V : Type) where
  tempStorageBytesCell : Nat
  cdpErrorCell : Nat
  keysOut : List K
  valsOut : List V
  numRunsCell : Nat

/-- Behaviour of the `DeviceReduce::ReduceByKey` entrypoint as seen by the
harness dispatch code: from (scratch allocation present?, current
`temp_storage_bytes`, stream, `debug_synchronous`) it produces the updated
byte count, a status, and optionally the outputs written to the output
buffers (`none` when no outputs are written, e.g. on a size query).  The
harness dispatch plumbing is verified for every such entrypoint behaviour. -/
def RBKFun (K V : Type) : Type :=
  Option Unit → Nat → Nat → Bool → Nat × Nat × Option (List K × List V × Nat)

/-- Apply an entrypoint's output writes to the output buffers. -/
def applyOuts {K V : Type} (mem : DeviceMem K V)
    (o : Option (List K × List V × Nat)) : DeviceMem K V :=
  match o with
  | none => mem
  | some (ks, vs, nr) =>
    { mem with keysOut := ks, valsOut := vs, numRunsCell := nr }

/-- The timing loop of `Dispatch(Int2Type<CUB>, ..)`
(test_device_reduce_by_key.cu:104-120): `error = cudaSuccess;` then
`timing_timing_iterations` calls of `DeviceReduce::ReduceByKey`, each
threading the by-reference `temp_storage_bytes` and overwriting `error`;
returns the final `(temp_storage_bytes, error, memory)`. -/
def cubDispatchGo {K V : Type} (f : RBKFun K V) (storage : Option Unit)
    (stream : Nat) (debug : Bool) :
    Nat → Nat → Nat → DeviceMem K V → Nat × Nat × DeviceMem K V
  | 0, bytes, err, mem => (bytes, err, mem)
  | iters + 1, bytes, _, mem =>
    cubDispatchGo f storage stream debug iters
      (f storage bytes stream debug).1
      (f storage bytes stream debug).2.1
      (applyOuts mem (f storage bytes stream debug).2.2)

/-- `Dispatch(Int2Type<CUB>, ..)` (test_device_reduce_by_key.cu:85-121): the
direct path; `d_temp_storage_bytes`, `d_cdp_error` and `equality_op` are
taken and ignored. -/
def cubDispatch {K V : Type} (f : RBKFun K V) (iters : Nat)
    (storage : Option Unit) (bytes : Nat) (stream : Nat) (debug : Bool)
    (mem : DeviceMem K V) : Nat × Nat × DeviceMem K V :=
  cubDispatchGo f storage stream debug iters bytes cudaSuccess mem

/-- `CDPDispatchKernel` (test_device_reduce_by_key.cu:141-177): the body of
the size-1 nested launch.  It receives `temp_storage_bytes` by value, invokes
the direct `Dispatch` path with stream `0`, stores the returned status into
`*d_cdp_error` and the updated byte count into `*d_temp_storage_bytes`. -/
def cdpDispatchKernel {K V : Type} (f : RBKFun K V) (iters : Nat)
    (storage : Option Unit) (bytes : Nat) (debug : Bool)
    (mem : DeviceMem K V) : DeviceMem K V :=
  { (cubDispatch f iters storage bytes 0 debug mem).2.2 with
    cdpErrorCell := (cubDispatch f iters storage bytes 0 debug mem).2.1
    tempStorageBytesCell := (cubDispatch f iters storage bytes 0 debug mem).1 }

/-- `Dispatch(Int2Type<CDP>, ..)` (test_device_reduce_by_key.cu:190-250): the
nested-dispatch bridge.  It launches `CDPDispatchKernel` on a 1-block,
1-thread grid (`triple_chevron(1, 1, 0, stream)`), then copies
`*d_temp_storage_bytes` back into the by-reference `temp_storage_bytes` and
`*d_cdp_error` back into the returned status.  The launch and the two copies
are modelled as succeeding (`CubDebugExit` aborts the test otherwise). -/
def cdpDispatch {K V : Type} (f : RBKFun K V) (iters : Nat)
    (storage : Option Unit) (bytes : Nat) (_stream : Nat) (debug : Bool)
    (mem : DeviceMem K V) : Nat × Nat × DeviceMem K V :=
  ((cdpDispatchKernel f iters storage bytes debug mem).tempStorageBytesCell,
   (cdpDispatchKernel f iters storage bytes debug mem).cdpErrorCell,
   cdpDispatchKernel f iters storage bytes debug mem)

/-- Modelled from the spec: the `TuningPolicy` record (§3, §4.2) together
with the byte-size/alignment data of the per-tile aggregate record and the
fixed counter scratch that §4.3 makes the temporary-storage layout depend
on.  The policy-selection and layout code is not among the source files. -/
structure TuningPolicy where
  blockThreads : Nat
  itemsPerThread : Nat
  aggRecordSize : Nat
  aggRecordAlign : Nat
  counterBytes : Nat
  counterAlign : Nat

/-- Tile size of a policy: `block_threads * items_per_thread` (§3). -/
def tileSize (p : TuningPolicy) : Nat := p.blockThreads * p.itemsPerThread

/-- Round `off` up to the next multiple of `align` (`align = 0` leaves it). -/
def alignUp (off align : Nat) : Nat :=
  if align = 0 then off else (off + align - 1) / align * align

/-- Modelled from the spec: `numTiles = ceil(numItems / tile_size)` (§4.3). -/
def numTiles (p : TuningPolicy) (numItems : Nat) : Nat :=
  (numItems + tileSize p - 1) / tileSize p

/-- Modelled from the spec: the `TemporaryStorageLayout` region list (§4.3),
in order: (1) the per-tile aggregate/status array of
`numTiles * sizeOf(AggregateRecord)` bytes, (2) the small fixed scratch for
device-side counters; each region's offset aligned to its type's natural
alignment.  Returned as `(offset, bytes)` pairs. -/
def storageLayout (p : TuningPolicy) (numItems : Nat) : List (Nat × Nat) :=
  [(alignUp 0 p.aggRecordAlign, numTiles p numItems * p.aggRecordSize),
   (alignUp (alignUp 0 p.aggRecordAlign + numTiles p numItems * p.aggRecordSize)
      p.counterAlign,
    p.counterBytes)]

/-- Modelled from the spec: the total byte count of the layout (§4.3): the
sum of the aligned region sizes, i.e. the end of the last region. -/
def requiredBytes (p : TuningPolicy) (numItems : Nat) : Nat :=
  alignUp (alignUp 0 p.aggRecordAlign + numTiles p numItems * p.aggRecordSize)
    p.counterAlign + p.counterBytes

/-- Modelled from the spec: the size query — `Dispatch` called with a null
`d_temp_storage` (§4.1) — computes the required byte count and internal
region layout from the policy-relevant inputs and `numItems` alone and
returns success; the stream, the `debugSynchronous` flag and whatever value
the caller's `temp_storage_bytes` held before the call are not inputs to the
layout computation. -/
def sizeQuery (p : TuningPolicy) (numItems : Nat) (_stream : Nat)
    (_debug : Bool) (_staleBytes : Nat) : Nat × List (Nat × Nat) × Nat :=
  (requiredBytes p numItems, storageLayout p numItems, cudaSuccess)

/-- Modelled from the spec: a dispatch-and-execute call with the
`debugSynchronous` flag (§4.1, §4.4).  The flag inserts a synchronization
point and a diagnostic log line after each pipeline stage; the reduce-by-key
result itself comes from the same pipeline either way.  Returns the result
together with the diagnostic trace. -/
def dispatchWithDebug {K V : Type} (equality_op : K → K → Bool)
    (reduction_op : V → V → V) (keys : List K) (vals : List V)
    (debug : Bool) : ((List K × List V × Nat) × Nat) × List String :=
  (reduceByKeyOp equality_op reduction_op keys vals,
   if debug then ["sync after scan stage", "sync after materialization stage"]
   else [])

/-- The global sticky CUDA runtime state observed by `Debug`: the latent
error flag read-and-cleared by `cudaGetLastError()` and the stderr log. -/
structure CudaState where
  lastError : Nat
  stderrLog : List String

/-- The diagnostic line printed by `Debug` (util_debug.cuh:79-84, host
branch): status code plus source context. -/
def debugMessage (error : Nat) (filename : String) (line : Nat) : String :=
  "CUDA error " ++ toString error ++ " [" ++ filename ++ ", "
    ++ toString line ++ "]"

/-- `Debug` (util_debug.cuh:68-107).  It first calls `cudaGetLastError()`,
which clears the sticky global error flag (the returned stale value is
discarded); then, if `CUB_STDERR` is defined (`stderrEnabled`) and the status
is non-success, prints the diagnostic line; finally returns the status it
was given.  The `NV_IF_TARGET` device branch differs only in the text
logged. -/
def Debug (stderrEnabled : Bool) (error : Nat) (filename : String)
    (line : Nat) (s : CudaState) : Nat × CudaState :=
  (error,
   if stderrEnabled then
     if error ≠ 0 then
       { lastError := 0
         stderrLog := s.stderrLog ++ [debugMessage error filename line] }
     else { lastError := 0, stderrLog := s.stderrLog }
   else { lastError := 0, stderrLog := s.stderrLog })

/-- A concrete entrypoint behaviour, used to instantiate the dispatch
equivalence at a specific input. -/
def demoRBK : RBKFun Nat Nat :=
  fun storage bytes _ _ =>
    match storage with
    | none => (bytes + 16, cudaSuccess, none)
    | some _ => (bytes, cudaSuccess, some ([1, 2, 3], [30, 120, 60], 3))

/-- A concrete initial device memory, used to instantiate the dispatch
equivalence at a specific input. -/
def demoMem : DeviceMem Nat Nat :=
  { tempStorageBytesCell := 0, cdpErrorCell := 0, keysOut := [],
    valsOut := [], numRunsCell := 0 }

end TcCub

namespace TcCub

lemma solveStep_eq_true {K V : Type} (eq : K → K → Bool) (red : V → V → V)
    (prev : K) (agg : V) (ks : List K) (vs : List V) (n : Nat) (k : K) (v : V)
    (h : eq prev k = true) :
    solveStep eq red
        { previous := prev, aggregate := agg, keysRef := ks, valsRef := vs,
          numSegments := n } k v
      = { previous := k, aggregate := red agg v, keysRef := ks, valsRef := vs,
          numSegments := n } := by
  simp [solveStep, h]

lemma solveStep_eq_false {K V : Type} (eq : K → K → Bool) (red : V → V → V)
    (prev : K) (agg : V) (ks : List K) (vs : List V) (n : Nat) (k : K) (v : V)
    (h : eq prev k = false) :
    solveStep eq red
        { previous := prev, aggregate := agg, keysRef := ks, valsRef := vs,
          numSegments := n } k v
      = { previous := k, aggregate := v, keysRef := ks ++ [prev],
          valsRef := vs ++ [agg], numSegments := n + 1 } := by
  simp [solveStep, h]

lemma solveGo_cons_true {K V : Type} (eq : K → K → Bool) (red : V → V → V)
    (prev : K) (agg : V) (k : K) (v : V) (rest : List (K × V))
    (h : eq prev k = true) :
    solveGo eq red prev agg ((k, v) :: rest) = solveGo eq red k (red agg v) rest := by
  simp [solveGo, h]

lemma solveGo_cons_false {K V : Type} (eq : K → K → Bool) (red : V → V → V)
    (prev : K) (agg : V) (k : K) (v : V) (rest : List (K × V))
    (h : eq prev k = false) :
    solveGo eq red prev agg ((k, v) :: rest)
      = (prev :: (solveGo eq red k v rest).1, agg :: (solveGo eq red k v rest).2) := by
  simp [solveGo, h]

lemma foldl_solveStep_eq_solveGo {K V : Type} (eq : K → K → Bool) (red : V → V → V) :
    ∀ (rest : List (K × V)) (prev : K) (agg : V) (ks : List K) (vs : List V) (n : Nat),
      ((rest.foldl (fun s p => solveStep eq red s p.1 p.2)
          { previous := prev, aggregate := agg, keysRef := ks, valsRef := vs,
            numSegments := n }).keysRef
          ++ [(rest.foldl (fun s p => solveStep eq red s p.1 p.2)
          { previous := prev, aggregate := agg, keysRef := ks, valsRef := vs,
            numSegments := n }).previous],
       (rest.foldl (fun s p => solveStep eq red s p.1 p.2)
          { previous := prev, aggregate := agg, keysRef := ks, valsRef := vs,
            numSegments := n }).valsRef
          ++ [(rest.foldl (fun s p => solveStep eq red s p.1 p.2)
          { previous := prev, aggregate := agg, keysRef := ks, valsRef := vs,
            numSegments := n }).aggregate],
       (rest.foldl (fun s p => solveStep eq red s p.1 p.2)
          { previous := prev, aggregate := agg, keysRef := ks, valsRef := vs,
            numSegments := n }).numSegments + 1)
      = (ks ++ (solveGo eq red prev agg rest).1,
         vs ++ (solveGo eq red prev agg rest).2,
         n + (solveGo eq red prev agg rest).1.length) := by
  intro rest
  induction rest with
  | nil =>
    intro prev agg ks vs n
    simp [solveGo]
  | cons p rest ih =>
    intro prev agg ks vs n
    obtain ⟨k, v⟩ := p
    cases h : eq prev k
    · simp only [List.foldl_cons]
      rw [solveStep_eq_false eq red prev agg ks vs n k v h,
        solveGo_cons_false eq red prev agg k v rest h,
        ih k v (ks ++ [prev]) (vs ++ [agg]) (n + 1)]
      simp only [List.append_assoc, List.singleton_append, List.length_cons,
        Prod.mk.injEq, true_and, and_true]
      omega
    · simp only [List.foldl_cons]
      rw [solveStep_eq_true eq red prev agg ks vs n k v h,
        solveGo_cons_true eq red prev agg k v rest h]
      exact ih k (red agg v) ks vs n

lemma Solve_cons {K V : Type} (eq : K → K → Bool) (red : V → V → V)
    (k0 : K) (v0 : V) (kr : List K) (vr : List V) :
    Solve eq red (k0 :: kr) (v0 :: vr)
      = ((solveGo eq red k0 v0 (kr.zip vr)).1,
         (solveGo eq red k0 v0 (kr.zip vr)).2,
         (solveGo eq red k0 v0 (kr.zip vr)).1.length) := by
  have h := foldl_solveStep_eq_solveGo eq red (kr.zip vr) k0 v0 [] [] 0
  simpa [Solve] using h

lemma splitRunsGo_fst_head {K V : Type} (eq : K → K → Bool) (p : K × V)
    (rest : List (K × V)) :
    (splitRunsGo eq p rest).1 = p :: (splitRunsGo eq p rest).1.tail := by
  cases rest with
  | nil => rfl
  | cons q rest =>
    simp only [splitRunsGo]
    by_cases h : eq p.1 q.1 <;> simp [h]

lemma splitRunsGo_seed {K V : Type} (eq : K → K → Bool) (k : K) (v v' : V)
    (rest : List (K × V)) :
    splitRunsGo eq (k, v') rest
      = ((k, v') :: (splitRunsGo eq (k, v) rest).1.tail,
         (splitRunsGo eq (k, v) rest).2) := by
  cases rest with
  | nil => rfl
  | cons q rest =>
    simp only [splitRunsGo]
    by_cases h : eq k q.1 <;> simp [h]

lemma runLastKey_cons_same_key {K V : Type} (p q q' : K × V) (hk : q.1 = q'.1)
    (t : List (K × V)) :
    runLastKey (p :: q :: t) = runLastKey (q' :: t) := by
  cases t with
  | nil => simp [runLastKey, hk]
  | cons a l => simp [runLastKey, List.getLast?_cons_cons]

/-- Main correspondence: the key/value sequences emitted by the `Solve` loop
are, run by run, the last key and the left value-fold of each maximal
contiguous run of the remaining input (seeded with the current open run's
key and partial aggregate). -/
lemma solveGo_runs {K V : Type} (eq : K → K → Bool) (red : V → V → V) :
    ∀ (rest : List (K × V)) (prev : K) (agg : V),
      (solveGo eq red prev agg rest).1.map some
          = (((splitRunsGo eq (prev, agg) rest).1
              :: (splitRunsGo eq (prev, agg) rest).2).map runLastKey)
      ∧ (solveGo eq red prev agg rest).2.map some
          = (((splitRunsGo eq (prev, agg) rest).1
              :: (splitRunsGo eq (prev, agg) rest).2).map (runFold red)) := by
  intro rest
  induction rest with
  | nil =>
    intro prev agg
    simp [solveGo, splitRunsGo, runLastKey, runFold]
  | cons q rest ih =>
    intro prev agg
    obtain ⟨k, v⟩ := q
    have hsplit_head := splitRunsGo_fst_head eq (k, v) rest
    cases h : eq prev k
    · -- the run breaks between prev and k
      have hsplit : splitRunsGo eq (prev, agg) ((k, v) :: rest)
          = ([(prev, agg)],
             (splitRunsGo eq (k, v) rest).1 :: (splitRunsGo eq (k, v) rest).2) := by
        simp [splitRunsGo, h]
      obtain ⟨ih1, ih2⟩ := ih k v
      rw [solveGo_cons_false eq red prev agg k v rest h, hsplit]
      constructor
      · simpa [runLastKey] using ih1
      · simpa [runFold] using ih2
    · -- k continues the open run
      have hsplit : splitRunsGo eq (prev, agg) ((k, v) :: rest)
          = ((prev, agg) :: (splitRunsGo eq (k, v) rest).1,
             (splitRunsGo eq (k, v) rest).2) := by
        simp [splitRunsGo, h]
      obtain ⟨ih1, ih2⟩ := ih k (red agg v)
      rw [splitRunsGo_seed eq k v (red agg v) rest] at ih1 ih2
      rw [solveGo_cons_true eq red prev agg k v rest h, hsplit]
      constructor
      · rw [ih1]
        simp only [List.map_cons]
        congr 1
        rw [hsplit_head]
        exact (runLastKey_cons_same_key (prev, agg) (k, v) (k, red agg v) rfl _).symm
      · rw [ih2]
        simp only [List.map_cons]
        congr 1
        rw [hsplit_head]
        simp [runFold]

lemma solveGo_fst_length_eq_snd_length {K V : Type} (eq : K → K → Bool)
    (red : V → V → V) :
    ∀ (rest : List (K × V)) (prev : K) (agg : V),
      (solveGo eq red prev agg rest).1.length
        = (solveGo eq red prev agg rest).2.length := by
  intro rest
  induction rest with
  | nil => intro prev agg; simp [solveGo]
  | cons q rest ih =>
    intro prev agg
    obtain ⟨k, v⟩ := q
    cases h : eq prev k
    · rw [solveGo_cons_false eq red prev agg k v rest h]
      simp [ih k v]
    · rw [solveGo_cons_true eq red prev agg k v rest h]
      exact ih k (red agg v)

/-- Claim C1: for every key sequence, value sequence of the same length (at
least 1), equality relation and reduction operator, `Solve` emits exactly as
many (key, value) pairs as there are maximal contiguous equal-key runs in
the input, the reported count equals that number, the i-th emitted value is
the left fold of the reduction operator over the values of exactly the i-th
run in input order, and the i-th emitted key is the i-th run's (last) key.
Runs (`splitRuns`) are contiguous, never grouped across the sequence. -/
theorem reduceByKey_run_segments {K V : Type}
    (equality_op : K → K → Bool) (reduction_op : V → V → V)
    (keys : List K) (vals : List V)
    (hlen : keys.length = vals.length) (hne : keys ≠ []) :
    (Solve equality_op reduction_op keys vals).1.length
        = (splitRuns equality_op (keys.zip vals)).length
    ∧ (Solve equality_op reduction_op keys vals).2.1.length
        = (splitRuns equality_op (keys.zip vals)).length
    ∧ (Solve equality_op reduction_op keys vals).2.2
        = (splitRuns equality_op (keys.zip vals)).length
    ∧ (Solve equality_op reduction_op keys vals).2.1.map some
        = (splitRuns equality_op (keys.zip vals)).map (runFold reduction_op)
    ∧ (Solve equality_op reduction_op keys vals).1.map some
        = (splitRuns equality_op (keys.zip vals)).map runLastKey := by
  cases keys with
  | nil => exact absurd rfl hne
  | cons k0 kr =>
    cases vals with
    | nil => simp at hlen
    | cons v0 vr =>
      rw [Solve_cons]
      have hzip : (k0 :: kr).zip (v0 :: vr) = (k0, v0) :: kr.zip vr := rfl
      have hruns : splitRuns equality_op ((k0, v0) :: kr.zip vr)
          = (splitRunsGo equality_op (k0, v0) (kr.zip vr)).1
            :: (splitRunsGo equality_op (k0, v0) (kr.zip vr)).2 := rfl
      rw [hzip, hruns]
      obtain ⟨h1, h2⟩ := solveGo_runs equality_op reduction_op (kr.zip vr) k0 v0
      have hl1 : (solveGo equality_op reduction_op k0 v0 (kr.zip vr)).1.length
          = ((splitRunsGo equality_op (k0, v0) (kr.zip vr)).1
            :: (splitRunsGo equality_op (k0, v0) (kr.zip vr)).2).length := by
        have := congrArg List.length h1
        simpa using this
      have hl2 : (solveGo equality_op reduction_op k0 v0 (kr.zip vr)).2.length
          = ((splitRunsGo equality_op (k0, v0) (kr.zip vr)).1
            :: (splitRunsGo equality_op (k0, v0) (kr.zip vr)).2).length := by
        have := congrArg List.length h2
        simpa using this
      exact ⟨hl1, hl2, hl1, h2, h1⟩

/-- Witness for `reduceByKey_run_segments` at the spec's concrete scenario. -/
theorem reduceByKey_run_segments_witness :
    demoKeys.length = demoVals.length ∧ demoKeys ≠ []
    ∧ ((Solve natEq natAdd demoKeys demoVals).1.length
        = (splitRuns natEq (demoKeys.zip demoVals)).length
      ∧ (Solve natEq natAdd demoKeys demoVals).2.1.length
        = (splitRuns natEq (demoKeys.zip demoVals)).length
      ∧ (Solve natEq natAdd demoKeys demoVals).2.2
        = (splitRuns natEq (demoKeys.zip demoVals)).length
      ∧ (Solve natEq natAdd demoKeys demoVals).2.1.map some
        = (splitRuns natEq (demoKeys.zip demoVals)).map (runFold natAdd)
      ∧ (Solve natEq natAdd demoKeys demoVals).1.map some
        = (splitRuns natEq (demoKeys.zip demoVals)).map runLastKey) :=
  ⟨by decide, by decide,
   reduceByKey_run_segments natEq natAdd demoKeys demoVals (by decide) (by decide)⟩

lemma solveGo_const_true {K V : Type} (red : V → V → V) :
    ∀ (rest : List (K × V)) (prev : K) (agg : V),
      solveGo (fun _ _ => true) red prev agg rest
        = ([(rest.map Prod.fst).getLastD prev],
           [rest.foldl (fun a q => red a q.2) agg]) := by
  intro rest
  induction rest with
  | nil => intro prev agg; simp [solveGo]
  | cons q rest ih =>
    intro prev agg
    obtain ⟨k, v⟩ := q
    rw [solveGo_cons_true (fun _ _ => true) red prev agg k v rest rfl, ih k (red agg v)]
    simp only [List.map_cons, List.getLastD_cons, List.foldl_cons]

lemma solveGo_const_false {K V : Type} (red : V → V → V) :
    ∀ (rest : List (K × V)) (prev : K) (agg : V),
      solveGo (fun _ _ => false) red prev agg rest
        = (prev :: rest.map Prod.fst, agg :: rest.map Prod.snd) := by
  intro rest
  induction rest with
  | nil => intro prev agg; simp [solveGo]
  | cons q rest ih =>
    intro prev agg
    obtain ⟨k, v⟩ := q
    rw [solveGo_cons_false (fun _ _ => false) red prev agg k v rest rfl, ih k v]
    simp

/-- Claim C2: the caller-supplied equality relation alone decides run
membership — no strictly-increasing-key assumption.  Under the relation
where all items compare equal, `Solve` emits a single run spanning the whole
input (its last key and the fold of all values); under the relation where
every adjacent pair compares unequal, it emits one run per item — the keys
and values pass through unchanged, a plain reduce with one output per
item. -/
theorem reduceByKey_arbitrary_equality {K V : Type} (red : V → V → V)
    (k0 : K) (kr : List K) (v0 : V) (vr : List V)
    (hlen : kr.length = vr.length) :
    Solve (fun _ _ => true) red (k0 :: kr) (v0 :: vr)
        = ([kr.getLastD k0], [vr.foldl red v0], 1)
    ∧ Solve (fun _ _ => false) red (k0 :: kr) (v0 :: vr)
        = (k0 :: kr, v0 :: vr, kr.length + 1) := by
  have hfst : (kr.zip vr).map Prod.fst = kr :=
    List.map_fst_zip kr vr (le_of_eq hlen)
  have hsnd : (kr.zip vr).map Prod.snd = vr :=
    List.map_snd_zip kr vr (le_of_eq hlen.symm)
  constructor
  · rw [Solve_cons, solveGo_const_true]
    have hfold : (kr.zip vr).foldl (fun a q => red a q.2) v0 = vr.foldl red v0 := by
      conv_rhs => rw [← hsnd]
      rw [List.foldl_map]
    rw [hfst, hfold]
    rfl
  · rw [Solve_cons, solveGo_const_false, hfst, hsnd]
    simp

/-- Witness for `reduceByKey_arbitrary_equality` on a length-2 input. -/
theorem reduceByKey_arbitrary_equality_witness :
    ([2] : List Nat).length = ([20] : List Nat).length
    ∧ (Solve (fun _ _ => true) natAdd [1, 2] [10, 20]
        = ([[2].getLastD 1], [[20].foldl natAdd 10], 1)
      ∧ Solve (fun _ _ => false) natAdd [1, 2] [10, 20]
        = ([1, 2], [10, 20], [2].length + 1)) :=
  ⟨rfl, reduceByKey_arbitrary_equality natAdd 1 [2] 10 [20] rfl⟩

lemma solveGo_all_equal {K V : Type} (eq : K → K → Bool) (red : V → V → V)
    (k : K) (hrefl : eq k k = true) :
    ∀ (vr : List V) (agg : V),
      solveGo eq red k agg ((List.replicate vr.length k).zip vr)
        = ([k], [vr.foldl red agg]) := by
  intro vr
  induction vr with
  | nil => intro agg; simp [solveGo]
  | cons v vr ih =>
    intro agg
    have hz : (List.replicate (v :: vr).length k).zip (v :: vr)
        = (k, v) :: (List.replicate vr.length k).zip vr := by
      simp [List.replicate_succ]
    rw [hz, solveGo_cons_true eq red k agg k v _ hrefl, ih (red agg v)]
    simp

/-- Claim C3: degenerate cases of the (spec-modelled) device operation:
`numItems == 0` gives zero runs, empty output writes and a success status;
`numItems == 1` gives exactly one run equal to the single input pair; with
all keys equal (a replicated key, under a reflexive equality) it emits
exactly one run spanning the whole input.  The 1-item and all-equal cases
are facts about the in-repository reference `Solve` underlying the model. -/
theorem reduceByKey_degenerate_cases {K V : Type}
    (equality_op : K → K → Bool) (reduction_op : V → V → V)
    (k : K) (v : V) (vr : List V)
    (hrefl : equality_op k k = true) :
    reduceByKeyOp equality_op reduction_op ([] : List K) ([] : List V)
        = (([], [], 0), cudaSuccess)
    ∧ reduceByKeyOp equality_op reduction_op [k] [v]
        = (([k], [v], 1), cudaSuccess)
    ∧ reduceByKeyOp equality_op reduction_op
          (List.replicate (vr.length + 1) k) (v :: vr)
        = (([k], [vr.foldl reduction_op v], 1), cudaSuccess) := by
  refine ⟨rfl, rfl, ?_⟩
  have hrep : List.replicate (vr.length + 1) k = k :: List.replicate vr.length k := by
    simp [List.replicate_succ]
  rw [hrep]
  simp only [reduceByKeyOp, List.isEmpty_cons, Bool.false_eq_true, if_false]
  rw [Solve_cons, solveGo_all_equal equality_op reduction_op k hrefl vr v]
  rfl

/-- Witness for `reduceByKey_degenerate_cases` at key 5, values 7, [3]. -/
theorem reduceByKey_degenerate_cases_witness :
    natEq 5 5 = true
    ∧ (reduceByKeyOp natEq natAdd ([] : List Nat) ([] : List Nat)
        = (([], [], 0), cudaSuccess)
      ∧ reduceByKeyOp natEq natAdd [5] [7] = (([5], [7], 1), cudaSuccess)
      ∧ reduceByKeyOp natEq natAdd (List.replicate ([3].length + 1) 5) (7 :: [3])
        = (([5], [[3].foldl natAdd 7], 1), cudaSuccess)) :=
  ⟨by decide, reduceByKey_degenerate_cases natEq natAdd 5 7 [3] (by decide)⟩

/-- Claim C4: on keys `[1,1,2,2,2,3]` and values `[10,20,30,40,50,60]`, with
sum as the reduction operator and `==` as equality, the reference `Solve`
and the modelled device operation both produce output keys `[1,2,3]`, output
values `[30,120,60]` and run count `3` (with success status). -/
theorem reduceByKey_concrete_scenario :
    Solve natEq natAdd demoKeys demoVals = ([1, 2, 3], [30, 120, 60], 3)
    ∧ reduceByKeyOp natEq natAdd demoKeys demoVals
      = (([1, 2, 3], [30, 120, 60], 3), cudaSuccess) := by
  constructor <;> rfl

/-- Claim C5: the nested-dispatch (CDP) bridge is equivalent to the direct
entry path.  For every entrypoint behaviour `f`, iteration count, scratch
pointer, incoming byte count, initial device memory, and the null stream the
call sites use, the byte count and status the bridge's size-1 launch copies
back to the caller-visible locations — and the contents of the output
buffers — equal those the direct `Dispatch` call produces for the same
arguments. -/
theorem cdp_dispatch_equiv {K V : Type} (f : RBKFun K V) (iters : Nat)
    (storage : Option Unit) (bytes : Nat) (stream : Nat) (debug : Bool)
    (mem : DeviceMem K V) (hs : stream = 0) :
    (cdpDispatch f iters storage bytes stream debug mem).1
        = (cubDispatch f iters storage bytes stream debug mem).1
    ∧ (cdpDispatch f iters storage bytes stream debug mem).2.1
        = (cubDispatch f iters storage bytes stream debug mem).2.1
    ∧ (cdpDispatch f iters storage bytes stream debug mem).2.2.keysOut
        = (cubDispatch f iters storage bytes stream debug mem).2.2.keysOut
    ∧ (cdpDispatch f iters storage bytes stream debug mem).2.2.valsOut
        = (cubDispatch f iters storage bytes stream debug mem).2.2.valsOut
    ∧ (cdpDispatch f iters storage bytes stream debug mem).2.2.numRunsCell
        = (cubDispatch f iters storage bytes stream debug mem).2.2.numRunsCell := by
  subst hs
  exact ⟨rfl, rfl, rfl, rfl, rfl⟩

/-- Witness for `cdp_dispatch_equiv` at a concrete entrypoint behaviour. -/
theorem cdp_dispatch_equiv_witness :
    (0 : Nat) = 0
    ∧ ((cdpDispatch demoRBK 2 (some ()) 4 0 true demoMem).1
        = (cubDispatch demoRBK 2 (some ()) 4 0 true demoMem).1
      ∧ (cdpDispatch demoRBK 2 (some ()) 4 0 true demoMem).2.1
        = (cubDispatch demoRBK 2 (some ()) 4 0 true demoMem).2.1
      ∧ (cdpDispatch demoRBK 2 (some ()) 4 0 true demoMem).2.2.keysOut
        = (cubDispatch demoRBK 2 (some ()) 4 0 true demoMem).2.2.keysOut
      ∧ (cdpDispatch demoRBK 2 (some ()) 4 0 true demoMem).2.2.valsOut
        = (cubDispatch demoRBK 2 (some ()) 4 0 true demoMem).2.2.valsOut
      ∧ (cdpDispatch demoRBK 2 (some ()) 4 0 true demoMem).2.2.numRunsCell
        = (cubDispatch demoRBK 2 (some ()) 4 0 true demoMem).2.2.numRunsCell) :=
  ⟨rfl, cdp_dispatch_equiv demoRBK 2 (some ()) 4 0 true demoMem rfl⟩

/-- Claim C6: the size query is idempotent and reproducible: two calls with
identical policy-relevant inputs and the same `numItems` return an identical
required byte count, an identical internal region layout, and the same
status, whatever the stream, debug flag and stale caller-side byte value of
each call are. -/
theorem sizeQuery_idempotent (p : TuningPolicy) (numItems : Nat)
    (s1 s2 : Nat) (d1 d2 : Bool) (b1 b2 : Nat) :
    sizeQuery p numItems s1 d1 b1 = sizeQuery p numItems s2 d2 b2 := rfl

/-- Claim C7: the `debugSynchronous` flag is purely observational: for every
input, dispatching with the flag enabled and with it disabled produces
identical output keys, output values, run count and status; only the
diagnostic trace differs. -/
theorem debugSynchronous_observational {K V : Type}
    (equality_op : K → K → Bool) (reduction_op : V → V → V)
    (keys : List K) (vals : List V) :
    (dispatchWithDebug equality_op reduction_op keys vals true).1
      = (dispatchWithDebug equality_op reduction_op keys vals false).1 := rfl

/-- Claim C8: for every status code, file name, line number and global CUDA
state, and whether or not `CUB_STDERR` logging is enabled, the `Debug`
wrapper returns exactly the status it was given. -/
theorem Debug_returns_status_unchanged (stderrEnabled : Bool) (error : Nat)
    (filename : String) (line : Nat) (s : CudaState) :
    (Debug stderrEnabled error filename line s).1 = error := rfl

/-- Claim C9: for every non-success status passed to `Debug`, the wrapper's
`cudaGetLastError()` call clears the latent global error flag before any
logging or return (the post-state flag is `0`), and its observable behaviour
is independent of whatever stale error value the flag held — an error from
one call is never misattributed to a later, unrelated call. -/
theorem Debug_clears_latent_error (stderrEnabled : Bool) (error : Nat)
    (filename : String) (line : Nat) (s : CudaState) (_h : error ≠ 0) :
    (Debug stderrEnabled error filename line s).2.lastError = 0
    ∧ ∀ stale : Nat,
        Debug stderrEnabled error filename line
            { lastError := stale, stderrLog := s.stderrLog }
          = Debug stderrEnabled error filename line s := by
  constructor
  · by_cases he : stderrEnabled
    · by_cases h0 : error ≠ 0 <;> simp [Debug, he, h0]
    · simp [Debug, he]
  · intro stale
    rfl

/-- Witness for `Debug_clears_latent_error` at error 1 with stale flag 7. -/
theorem Debug_clears_latent_error_witness :
    (1 : Nat) ≠ 0
    ∧ ((Debug true 1 "device_reduce.cuh" 42
          { lastError := 7, stderrLog := [] }).2.lastError = 0
      ∧ ∀ stale : Nat,
          Debug true 1 "device_reduce.cuh" 42
              { lastError := stale, stderrLog := [] }
            = Debug true 1 "device_reduce.cuh" 42
              { lastError := 7, stderrLog := [] }) :=
  ⟨by decide,
   Debug_clears_latent_error true 1 "device_reduce.cuh" 42
     { lastError := 7, stderrLog := [] } (by decide)⟩

lemma solveGo_length_bounds {K V : Type} (eq : K → K → Bool) (red : V → V → V) :
    ∀ (rest : List (K × V)) (prev : K) (agg : V),
      1 ≤ (solveGo eq red prev agg rest).1.length
      ∧ (solveGo eq red prev agg rest).1.length ≤ rest.length + 1 := by
  intro rest
  induction rest with
  | nil => intro prev agg; simp [solveGo]
  | cons q rest ih =>
    intro prev agg
    obtain ⟨k, v⟩ := q
    cases h : eq prev k
    · rw [solveGo_cons_false eq red prev agg k v rest h]
      have := ih k v
      simp only [List.length_cons]
      omega
    · rw [solveGo_cons_true eq red prev agg k v rest h]
      have := ih k (red agg v)
      simp only [List.length_cons]
      omega

lemma solveCheckedGo_spec {K V : Type} (eq : K → K → Bool) (red : V → V → V)
    (keys : List K) (vals : List V) (numItems : Nat)
    (hk : keys.length = numItems) (hv : vals.length = numItems) :
    ∀ (fuel i : Nat) (prev : K) (agg : V) (ks : List K) (vs : List V) (n : Nat),
      i + fuel = numItems → n < i →
      solveCheckedGo eq red keys vals numItems fuel i prev agg ks vs n
        = some
          (ks ++ (solveGo eq red prev agg ((keys.drop i).zip (vals.drop i))).1,
           vs ++ (solveGo eq red prev agg ((keys.drop i).zip (vals.drop i))).2,
           n + (solveGo eq red prev agg ((keys.drop i).zip (vals.drop i))).1.length) := by
  intro fuel
  induction fuel with
  | zero =>
    intro i prev agg ks vs n hif hni
    have hdropk : keys.drop i = [] := List.drop_eq_nil_of_le (by omega)
    have hdropv : vals.drop i = [] := List.drop_eq_nil_of_le (by omega)
    have hn : n < numItems := by omega
    simp [solveCheckedGo, hn, hdropk, hdropv, solveGo]
  | succ fuel ih =>
    intro i prev agg ks vs n hif hni
    have hik : i < keys.length := by omega
    have hiv : i < vals.length := by omega
    have hkey : keys[i]? = some keys[i] := List.getElem?_eq_getElem hik
    have hval : vals[i]? = some vals[i] := List.getElem?_eq_getElem hiv
    have hzip : (keys.drop i).zip (vals.drop i)
        = (keys[i], vals[i]) :: (keys.drop (i + 1)).zip (vals.drop (i + 1)) := by
      rw [List.drop_eq_getElem_cons hik, List.drop_eq_getElem_cons hiv]
      rfl
    cases h : eq prev keys[i]
    · have hn : n < numItems := by omega
      have hrec := ih (i + 1) keys[i] vals[i] (ks ++ [prev]) (vs ++ [agg]) (n + 1)
        (by omega) (by omega)
      simp only [solveCheckedGo, hkey, hval, h, Bool.not_false, if_true, hn,
        if_pos, hrec, hzip,
        solveGo_cons_false eq red prev agg keys[i] vals[i]
          ((keys.drop (i + 1)).zip (vals.drop (i + 1))) h]
      simp only [List.append_assoc, List.singleton_append, List.length_cons,
        Option.some.injEq, Prod.mk.injEq, true_and, and_true]
      omega
    · have hrec := ih (i + 1) keys[i] (red agg vals[i]) ks vs n (by omega) (by omega)
      simp only [solveCheckedGo, hkey, hval, h, Bool.not_true, Bool.false_eq_true,
        if_false, hrec, hzip,
        solveGo_cons_true eq red prev agg keys[i] vals[i]
          ((keys.drop (i + 1)).zip (vals.drop (i + 1))) h]

/-- Claim C10: under the precondition `num_items >= 1` (with input arrays of
exactly that length), every array access the reference `Solve` performs is
in bounds — the checked embedding returns `some` and agrees with `Solve` —
and the returned segment count satisfies `1 <= count <= num_items`, so the
reference output arrays of length `num_items` are never overrun and the
count is never zero.  For `num_items == 0` the precondition is required:
the unconditional read of element 0 is out of bounds and the checked
embedding returns `none`. -/
theorem solve_reference_safety {K V : Type} (eq : K → K → Bool)
    (red : V → V → V) (keys : List K) (vals : List V) (numItems : Nat)
    (hk : keys.length = numItems) (hv : vals.length = numItems)
    (h1 : 1 ≤ numItems) :
    SolveChecked eq red keys vals numItems = some (Solve eq red keys vals)
    ∧ 1 ≤ (Solve eq red keys vals).2.2
    ∧ (Solve eq red keys vals).2.2 ≤ numItems
    ∧ SolveChecked eq red ([] : List K) ([] : List V) 0 = none := by
  cases keys with
  | nil => simp at hk; omega
  | cons k0 kr =>
    cases vals with
    | nil => simp at hv; omega
    | cons v0 vr =>
      have hgo := solveCheckedGo_spec eq red (k0 :: kr) (v0 :: vr) numItems hk hv
        (numItems - 1) 1 k0 v0 [] [] 0 (by omega) (by omega)
      have hchecked : SolveChecked eq red (k0 :: kr) (v0 :: vr) numItems
          = some ((solveGo eq red k0 v0 (kr.zip vr)).1,
                  (solveGo eq red k0 v0 (kr.zip vr)).2,
                  (solveGo eq red k0 v0 (kr.zip vr)).1.length) := by
        rw [SolveChecked]
        simp only [List.getElem?_cons_zero]
        simpa using hgo
      have hbounds := solveGo_length_bounds eq red (kr.zip vr) k0 v0
      have hzlen : (kr.zip vr).length = min kr.length vr.length :=
        List.length_zip kr vr
      have hklen : kr.length + 1 = numItems := by
        simpa using hk
      refine ⟨?_, ?_, ?_, rfl⟩
      · rw [hchecked, Solve_cons]
      · rw [Solve_cons]
        exact hbounds.1
      · rw [Solve_cons]
        show (solveGo eq red k0 v0 (kr.zip vr)).1.length ≤ numItems
        have h2 := hbounds.2
        rw [hzlen] at h2
        omega

/-- Witness for `solve_reference_safety` at the concrete scenario input. -/
theorem solve_reference_safety_witness :
    demoKeys.length = 6 ∧ demoVals.length = 6 ∧ 1 ≤ 6
    ∧ (SolveChecked natEq natAdd demoKeys demoVals 6
        = some (Solve natEq natAdd demoKeys demoVals)
      ∧ 1 ≤ (Solve natEq natAdd demoKeys demoVals).2.2
      ∧ (Solve natEq natAdd demoKeys demoVals).2.2 ≤ 6
      ∧ SolveChecked natEq natAdd ([] : List Nat) ([] : List Nat) 0 = none) :=
  ⟨by decide, by decide, by decide,
   solve_reference_safety natEq natAdd demoKeys demoVals 6
     (by decide) (by decide) (by decide)⟩

end TcCub
